import Mathlib

/-!
Shallow embedding of `datatable.go` (package `datatable`, repo ekzhu/datatable).

A `DataTable` mirrors the Go struct: a list of rows (each a list of string
cells) together with the cached counters `nrow` and `ncol`.  Go's in-place
mutation becomes explicit state passing: a mutating method of the source
becomes a function returning the updated table.  Go `int` index arguments are
modelled as `Int` (they may be negative); the stored counters are modelled as
`Nat`, since every constructor of the package produces non-negative counts.
A Go runtime panic from an out-of-range index or slice bound is modelled as
`Option.none` (or a dedicated `panic`-style constructor where a function can
also return an `error` value).
-/

abbrev Row := List String

structure DataTable where
  rows : List Row
  nrow : Nat
  ncol : Nat
deriving DecidableEq, Repr

/-- The errors declared at the top of `datatable.go`: `errNumCol`
("Incorrect number of columns") and `errSingleCol`
("Refuse to remove the last column"). -/
inductive DTError where
  | errNumCol
  | errSingleCol
deriving DecidableEq, Repr

/-- Go runtime panics that the package can hit: an out-of-range index /
slice bound, and the explicit `panic("Row data corrupted")` in
`Project` / `Merge`. -/
inductive GoPanic where
  | indexOutOfRange
  | rowDataCorrupted
deriving DecidableEq, Repr

/-- Go indexing `l[i]` with an `int` index: panics (`none`) unless
`0 ≤ i < len l`. -/
def goIdx (l : List α) (i : Int) : Option α :=
  if 0 ≤ i then l[i.toNat]? else none

/-- Go's `dst := make([]string, n); copy(dst, src)`: the result has length
`n`, holding the first `min n (len src)` cells of `src` followed by
zero-value (`""`) padding. -/
def goMakeCopy (n : Nat) (src : Row) : Row :=
  src.take n ++ List.replicate (n - src.length) ""

/-- The wellformedness invariant every table built through the package API
satisfies: the cached row count is the number of rows and every row has
exactly `ncol` cells (spec invariant I1). -/
def WF (dt : DataTable) : Prop :=
  dt.nrow = dt.rows.length ∧ ∀ r ∈ dt.rows, r.length = dt.ncol

instance (dt : DataTable) : Decidable (WF dt) := by
  unfold WF; infer_instance

namespace DataTable

/-- `NewDataTable`: a fresh table with `ncol` columns and no rows. -/
def newDataTable (ncol : Nat) : DataTable :=
  { rows := [], nrow := 0, ncol := ncol }

/-- `AppendRow`: rejects a row whose length differs from `ncol` with
`errNumCol`, otherwise appends it and bumps `nrow`.  An `Except.error`
result models the Go call that returns an error and leaves the receiver
untouched. -/
def appendRow (dt : DataTable) (row : Row) : Except DTError DataTable :=
  if row.length ≠ dt.ncol then
    .error .errNumCol
  else
    .ok { dt with rows := dt.rows ++ [row], nrow := dt.nrow + 1 }

/-- `GetRow`: `row := make([]string, dt.ncol); copy(row, dt.rows[x])`.
`none` models the index panic when `x` is out of range for `dt.rows`. -/
def getRow (dt : DataTable) (x : Int) : Option Row :=
  (goIdx dt.rows x).map (goMakeCopy dt.ncol)

/-- `GetColumn`: `col := make([]string, dt.nrow)`, then `col[x] = row[y]`
for each row.  Any out-of-range access (`row[y]`, or `col[x]` when the
stored `nrow` undercounts the rows) panics; with fewer rows than `nrow`
the trailing cells keep their zero value `""`. -/
def getColumn (dt : DataTable) (y : Int) : Option Row := do
  let vals ← dt.rows.mapM (fun row => goIdx row y)
  if vals.length ≤ dt.nrow then
    pure (vals ++ List.replicate (dt.nrow - vals.length) "")
  else
    none

end DataTable

/-- Result of `ApplyColumn`: a runtime panic (out-of-range `row[y]`), the
first error returned by the callback, or normal completion. -/
inductive ApplyColumnResult (ε : Type) where
  | panic : ApplyColumnResult ε
  | error : ε → ApplyColumnResult ε
  | ok : ApplyColumnResult ε
deriving DecidableEq, Repr

/-- Loop body of `ApplyColumn`: `for x, row := range dt.rows`, evaluating
`row[y]` (panic if out of range) then `fn(x, row[y])`, returning the first
error immediately. -/
def applyColumnAux (fn : Nat → String → Except ε Unit) (y : Int) :
    Nat → List Row → ApplyColumnResult ε
  | _, [] => .ok
  | x, row :: rest =>
    match goIdx row y with
    | none => .panic
    | some v =>
      match fn x v with
      | .error e => .error e
      | .ok _ => applyColumnAux fn y (x + 1) rest

/-- `ApplyColumn(fn, y)`: calls `fn` on `(row index, row[y])` for every row
from first to last, propagating the first error.  There is no up-front
bounds check on `y`; an invalid `y` only panics when a row is actually
visited. -/
def DataTable.applyColumn (dt : DataTable) (fn : Nat → String → Except ε Unit)
    (y : Int) : ApplyColumnResult ε :=
  applyColumnAux fn y 0 dt.rows

/-- Result of `RemoveColumn`: the `errSingleCol` error, a runtime panic
from the slicing `append(row[:y], row[y+1:]...)`, or the updated table. -/
inductive RemoveColumnResult where
  | singleCol : RemoveColumnResult
  | panic : RemoveColumnResult
  | ok : DataTable → RemoveColumnResult
deriving DecidableEq, Repr

/-- One step of `RemoveColumn`'s loop: `append(row[:y], row[y+1:]...)`.
`row[:y]` requires `0 ≤ y ≤ len row` and `row[y+1:]` requires
`y + 1 ≤ len row`; together `0 ≤ y < len row`, else panic.  The value is
the row with cell `y` deleted and later cells shifted left. -/
def removeColumnRow (y : Int) (row : Row) : Option Row :=
  if 0 ≤ y ∧ y < (row.length : Int) then
    some (row.take y.toNat ++ row.drop (y.toNat + 1))
  else
    none

/-- `RemoveColumn(y)`: refuses with `errSingleCol` when `ncol == 1`;
otherwise rewrites every row in place dropping cell `y` and decrements
`ncol`. -/
def DataTable.removeColumn (dt : DataTable) (y : Int) : RemoveColumnResult :=
  if dt.ncol = 1 then
    .singleCol
  else
    match dt.rows.mapM (removeColumnRow y) with
    | none => .panic
    | some rows2 => .ok { rows := rows2, nrow := dt.nrow, ncol := dt.ncol - 1 }

/-- `Slice(x, n)`: `end := x + n`, clamped to `nrow`; the result shares
`dt.rows[x:end]`.  The Go slice expression panics (`none`) unless
`0 ≤ x ≤ end ≤ len(dt.rows)`. -/
def DataTable.slice (dt : DataTable) (x n : Int) : Option DataTable :=
  let e := if x + n ≥ (dt.nrow : Int) then (dt.nrow : Int) else x + n
  if 0 ≤ x ∧ x ≤ e ∧ e ≤ (dt.rows.length : Int) then
    let rows := (dt.rows.take e.toNat).drop x.toNat
    some { rows := rows, nrow := rows.length, ncol := dt.ncol }
  else
    none

/-- Result of `Project` / `Merge`: a runtime panic (an out-of-range read,
or the defensive `panic("Row data corrupted")` guarding the internal
`AppendRow`), or the finished table. -/
inductive BuildResult where
  | panic : GoPanic → BuildResult
  | ok : DataTable → BuildResult
deriving DecidableEq, Repr

/-- Loop of `Project`: for each source row build `row2` with the cells at
the requested column indexes (panicking on a bad index), then append it to
the accumulator, panicking `"Row data corrupted"` if that append errors. -/
def projectAux (ys : List Int) : List Row → DataTable → BuildResult
  | [], dt2 => .ok dt2
  | row :: rest, dt2 =>
    match ys.mapM (fun y => goIdx row y) with
    | none => .panic .indexOutOfRange
    | some row2 =>
      match dt2.appendRow row2 with
      | .error _ => .panic .rowDataCorrupted
      | .ok dt2' => projectAux ys rest dt2'

/-- `Project(ys...)`: a fresh table with `len ys` columns holding, for every
source row, the cells at `ys` in the given order. -/
def DataTable.project (dt : DataTable) (ys : List Int) : BuildResult :=
  projectAux ys dt.rows (DataTable.newDataTable ys.length)

/-- Row construction inside `Merge`: `row1 := make([]string, dt.NumCol())`,
then `row1[y1] = row2[matches[y1]]` for every mapped destination index,
unmapped cells keeping the zero value `""`.  A mapped source index outside
`row2` panics. -/
def mergeRow (ncol : Nat) (colMap : Int → Option Int) (row2 : Row) :
    Option Row :=
  (List.range ncol).mapM (fun y1 =>
    match colMap (Int.ofNat y1) with
    | some y2 => goIdx row2 y2
    | none => some "")

/-- Loop of `Merge`: for `x2` in `[0, dt2.NumRow())`, fetch `dt2.GetRow(x2)`,
build the mapped row, and append it, panicking `"Row data corrupted"` if
the append errors. -/
def mergeAux (dt2 : DataTable) (colMap : Int → Option Int) :
    List Int → DataTable → BuildResult
  | [], dt => .ok dt
  | x2 :: rest, dt =>
    match dt2.getRow x2 with
    | none => .panic .indexOutOfRange
    | some row2 =>
      match mergeRow dt.ncol colMap row2 with
      | none => .panic .indexOutOfRange
      | some row1 =>
        match dt.appendRow row1 with
        | .error _ => .panic .rowDataCorrupted
        | .ok dt' => mergeAux dt2 colMap rest dt'

/-- The index list `0, 1, ..., n-1` as Go `int` loop values. -/
def intRange (n : Nat) : List Int :=
  (List.range n).map Int.ofNat

/-- `Merge(dt2, colMap)`: appends to `dt` one mapped row per row of `dt2`.
The Go `map[int]int` is modelled as the lookup function `colMap`. -/
def DataTable.merge (dt : DataTable) (dt2 : DataTable)
    (colMap : Int → Option Int) : BuildResult :=
  mergeAux dt2 colMap (intRange dt2.nrow) dt

/-- `MarshalJSON`: `json.Marshal(dt.rows)`.  The codec is modelled at the
level of the decoded document — an ordered sequence of rows of cell
strings — since `encoding/json` is an external library whose textual
round-trip on `[][]string` is the identity at this level. -/
def DataTable.marshalJSON (dt : DataTable) : List Row :=
  dt.rows

/-- The local `ncol` computed by `UnmarshalJSON`: the length of the first
decoded row, or `0` when no row was decoded (`nrow == 0`). -/
def unmarshalNcol (data : List Row) : Nat :=
  if 0 < data.length then (data.headD []).length else 0

/-- `UnmarshalJSON`: takes the decoded row-of-rows document, sets
`nrow := len rows`, infers `ncol` from the first row (0 when there are no
rows), and rejects a document whose rows have inconsistent lengths with
`errNumCol`. -/
def unmarshalJSON (data : List Row) : Except DTError DataTable :=
  if 0 < data.length ∧ ¬ data.all (fun r => r.length = unmarshalNcol data) then
    .error .errNumCol
  else
    .ok { rows := data, nrow := data.length, ncol := unmarshalNcol data }

/-- The consumer loop shared by `Join`, `LeftJoin` and `HashJoin`:
`joined := NewDataTable(ncol)`, then `joined.AppendRow(row)` for every row
received from the channel, its error silently ignored (a wrongly-sized row
would be dropped). -/
def collectRows (ncol : Nat) (produced : List Row) : DataTable :=
  produced.foldl
    (fun dt row =>
      match dt.appendRow row with
      | .ok dt' => dt'
      | .error _ => dt)
    (DataTable.newDataTable ncol)

/-- Inner loop of `Join`/`LeftJoin`'s producer for one left row `l`:
`for j := 0; j < right.NumRow(); j++`, fetching `right.GetRow(j)` and
emitting `append(l, r...)` when the predicate holds. -/
def joinInner (right : DataTable) (fn : Row → Row → Bool) (l : Row) :
    List Int → Option (List Row)
  | [] => some []
  | j :: js => do
    let r ← right.getRow j
    let rest ← joinInner right fn l js
    pure (if fn l r then (l ++ r) :: rest else rest)

/-- Outer loop of `Join`'s producer: `for i := 0; i < left.NumRow(); i++`,
fetching `left.GetRow(i)` and running the inner loop over all right rows. -/
def joinOuter (left right : DataTable) (fn : Row → Row → Bool) :
    List Int → Option (List Row)
  | [] => some []
  | i :: is => do
    let l ← left.getRow i
    let here ← joinInner right fn l (intRange right.nrow)
    let rest ← joinOuter left right fn is
    pure (here ++ rest)

/-- `Join(left, right, fn)`: nested-loop predicate join.  The producer
goroutine emits `left_row ++ right_row` for every pair satisfying `fn`, in
left-major right-minor order, over a synchronous channel; the consumer
collects them into a table with `left.NumCol() + right.NumCol()` columns. -/
def join (left right : DataTable) (fn : Row → Row → Bool) :
    Option DataTable :=
  (joinOuter left right fn (intRange left.nrow)).map
    (collectRows (left.ncol + right.ncol))

/-- Outer loop of `LeftJoin`'s producer: like `Join`, but if a left row
matched zero right rows (`rowsJoined == 0`) it emits one padded row
`l ++ make([]string, right.NumCol())`. -/
def leftJoinOuter (left right : DataTable) (fn : Row → Row → Bool) :
    List Int → Option (List Row)
  | [] => some []
  | i :: is => do
    let l ← left.getRow i
    let here ← joinInner right fn l (intRange right.nrow)
    let here2 := if here.isEmpty then [l ++ List.replicate right.ncol ""] else here
    let rest ← leftJoinOuter left right fn is
    pure (here2 ++ rest)

/-- `LeftJoin(left, right, fn)`: predicate left-outer join; every left row
appears at least once, padded with `right.NumCol()` empty cells when it
joins with no right row. -/
def leftJoin (left right : DataTable) (fn : Row → Row → Bool) :
    Option DataTable :=
  (leftJoinOuter left right fn (intRange left.nrow)).map
    (collectRows (left.ncol + right.ncol))

/-- `HashJoin`'s size designation: `larger` is `left` exactly when
`left.NumRow() > right.NumRow()`, so a tie designates `right` as larger. -/
def largerOf (left right : DataTable) : DataTable :=
  if left.nrow > right.nrow then left else right

/-- `HashJoin`'s size designation: the other table. -/
def smallerOf (left right : DataTable) : DataTable :=
  if left.nrow > right.nrow then right else left

/-- `HashJoin`'s `fnLarge`: the key extractor of whichever side was
designated larger. -/
def fnLargeOf (left right : DataTable) (fnLeft fnRight : Row → String) :
    Row → String :=
  if left.nrow > right.nrow then fnLeft else fnRight

/-- `HashJoin`'s `fnSmall`: the key extractor of whichever side was
designated smaller. -/
def fnSmallOf (left right : DataTable) (fnLeft fnRight : Row → String) :
    Row → String :=
  if left.nrow > right.nrow then fnRight else fnLeft

/-- `HashJoin`'s `fnJoin`: concatenates a smaller-table row and a
larger-table row so that the result is always
`left_row ++ right_row`. -/
def fnJoinOf (left right : DataTable) : Row → Row → Row :=
  if left.nrow > right.nrow then
    fun s l => l ++ s
  else
    fun s l => s ++ l

/-- Building `HashJoin`'s multi-map `ht` over the larger table: for each
row (fetched with `GetRow`), append it to the bucket of its key.  The Go
`map[string][][]string` is modelled as a total function defaulting to the
empty bucket; the `exists` check that seeds an empty bucket is then a
no-op. -/
def buildHT (larger : DataTable) (fnLarge : Row → String) :
    List Int → (String → List Row) → Option (String → List Row)
  | [], ht => some ht
  | i :: is, ht =>
    match larger.getRow i with
    | none => none
    | some row =>
      buildHT larger fnLarge is
        (fun k => if k = fnLarge row then ht k ++ [row] else ht k)

/-- Probe loop of `HashJoin`: for each smaller-table row, look up its key's
bucket and emit `fnJoin(rowSmall, rowLarge)` per bucket entry, in bucket
(insertion) order.  An absent key (empty bucket) emits nothing, matching
the Go `exists` test. -/
def probeHT (smaller : DataTable) (fnSmall : Row → String)
    (fnJoin : Row → Row → Row) (ht : String → List Row) :
    List Int → Option (List Row)
  | [] => some []
  | i :: is => do
    let rowSmall ← smaller.getRow i
    let rest ← probeHT smaller fnSmall fnJoin ht is
    pure ((ht (fnSmall rowSmall)).map (fnJoin rowSmall) ++ rest)

/-- The producer goroutine of `HashJoin` after the size designation:
build the hash table over `larger`, then probe with `smaller`. -/
def hashJoinCore (smaller larger : DataTable)
    (fnSmall fnLarge : Row → String) (fnJoin : Row → Row → Row) :
    Option (List Row) :=
  match buildHT larger fnLarge (intRange larger.nrow) (fun _ => []) with
  | none => none
  | some ht => probeHT smaller fnSmall fnJoin ht (intRange smaller.nrow)

/-- `HashJoin(left, right, fnLeft, fnRight)`: equality join via the
temporary multi-map, collected into a table with
`left.NumCol() + right.NumCol()` columns. -/
def hashJoin (left right : DataTable) (fnLeft fnRight : Row → String) :
    Option DataTable :=
  (hashJoinCore (smallerOf left right) (largerOf left right)
      (fnSmallOf left right fnLeft fnRight)
      (fnLargeOf left right fnLeft fnRight)
      (fnJoinOf left right)).map
    (collectRows (left.ncol + right.ncol))

/-! ### Basic lemmas about the Go access primitives -/

lemma goIdx_ofNat (l : List α) (k : Nat) : goIdx l (Int.ofNat k) = l[k]? := by
  simp [goIdx]

lemma goIdx_eq_some_of_valid [Inhabited α] {l : List α} {i : Int} (h0 : 0 ≤ i)
    (h1 : i < (l.length : Int)) : goIdx l i = some (l.getD i.toNat default) := by
  have hlt : i.toNat < l.length := by omega
  simp [goIdx, h0, List.getElem?_eq_getElem hlt, List.getD_eq_getElem _ _ hlt]

lemma goIdx_eq_none_of_invalid {l : List α} {i : Int}
    (h : ¬ (0 ≤ i ∧ i < (l.length : Int))) : goIdx l i = none := by
  unfold goIdx
  by_cases h0 : 0 ≤ i
  · have : l.length ≤ i.toNat := by omega
    simp [h0, List.getElem?_eq_none this]
  · simp [h0]

lemma goMakeCopy_length (n : Nat) (src : Row) : (goMakeCopy n src).length = n := by
  simp [goMakeCopy]
  omega

lemma goMakeCopy_of_length {n : Nat} {src : Row} (h : src.length = n) :
    goMakeCopy n src = src := by
  subst h
  simp [goMakeCopy]

/-! ### Lemmas for iterating the rows of a wellformed table -/

lemma getRow_length {dt : DataTable} {x : Int} {v : Row}
    (h : dt.getRow x = some v) : v.length = dt.ncol := by
  unfold DataTable.getRow at h
  cases hg : goIdx dt.rows x with
  | none => rw [hg] at h; cases h
  | some r =>
    rw [hg] at h
    simp only [Option.map_some', Option.some.injEq] at h
    subst h
    exact goMakeCopy_length dt.ncol r

lemma getRow_of_drop {dt : DataTable}
    (hwf : ∀ r ∈ dt.rows, r.length = dt.ncol) {k : Nat} {r : Row}
    {rest : List Row} (hd : dt.rows.drop k = r :: rest) :
    dt.getRow (Int.ofNat k) = some r := by
  have hk : dt.rows[k]? = some r := by
    have h := List.getElem?_drop dt.rows k 0
    rw [hd] at h
    simpa using h.symm
  have hr : r ∈ dt.rows :=
    List.drop_subset k dt.rows (hd ▸ List.mem_cons_self r rest)
  unfold DataTable.getRow
  rw [goIdx_ofNat, hk, Option.map_some', goMakeCopy_of_length (hwf r hr)]

lemma drop_cons_succ {l : List α} {k : Nat} {a : α} {rest : List α}
    (h : l.drop k = a :: rest) : l.drop (k + 1) = rest := by
  have h1 := List.drop_drop 1 k l
  rw [h] at h1
  simpa using h1.symm

lemma getRow_none_of_invalid {dt : DataTable} {x : Int} (hwf : WF dt)
    (h : ¬ (0 ≤ x ∧ x < (dt.nrow : Int))) : dt.getRow x = none := by
  unfold DataTable.getRow
  rw [goIdx_eq_none_of_invalid (by rw [← hwf.1]; exact h)]
  rfl

lemma range'_map_ofNat_succ (k n : Nat) :
    (List.range' k (n + 1)).map Int.ofNat
      = Int.ofNat k :: (List.range' (k + 1) n).map Int.ofNat := by
  rw [List.range'_succ, List.map_cons]

lemma intRange_eq (n : Nat) : intRange n = (List.range' 0 n).map Int.ofNat := by
  rw [intRange, List.range_eq_range']

/-- Shared helper: a `mapM` whose every element succeeds is a `map`. -/
lemma mapM_eq_map_of_some {α β : Type} (f : α → Option β) (g : α → β) :
    ∀ (l : List α), (∀ a ∈ l, f a = some (g a)) → l.mapM f = some (l.map g) := by
  intro l
  induction l with
  | nil => intro _; rfl
  | cons a l ih =>
    intro h
    rw [List.map_cons, List.mapM_cons, h a (List.mem_cons_self a l),
      ih (fun b hb => h b (List.mem_cons_of_mem a hb))]
    rfl

/-! ### The consumer loop -/

lemma collectRows_go (produced : List Row) :
    ∀ (dt : DataTable), (∀ r ∈ produced, r.length = dt.ncol) →
      produced.foldl
          (fun dt row =>
            match dt.appendRow row with
            | .ok dt' => dt'
            | .error _ => dt)
          dt
        = { rows := dt.rows ++ produced, nrow := dt.nrow + produced.length,
            ncol := dt.ncol } := by
  induction produced with
  | nil => intro dt _; simp
  | cons row rest ih =>
    intro dt h
    have hrow : row.length = dt.ncol := h row (List.mem_cons_self row rest)
    have hstep : dt.appendRow row
        = .ok { dt with rows := dt.rows ++ [row], nrow := dt.nrow + 1 } := by
      simp [DataTable.appendRow, hrow]
    rw [List.foldl_cons, hstep]
    have := ih { dt with rows := dt.rows ++ [row], nrow := dt.nrow + 1 }
      (fun r hr => h r (List.mem_cons_of_mem row hr))
    simp only [this, List.append_assoc, List.singleton_append, List.length_cons]
    congr 1
    omega

/-- When every produced row has the advertised width, the consumer keeps
them all, in order. -/
lemma collectRows_spec {ncol : Nat} {produced : List Row}
    (h : ∀ r ∈ produced, r.length = ncol) :
    collectRows ncol produced
      = { rows := produced, nrow := produced.length, ncol := ncol } := by
  unfold collectRows
  rw [collectRows_go produced (DataTable.newDataTable ncol) (by simpa [DataTable.newDataTable] using h)]
  simp [DataTable.newDataTable]

/-! ### Producer loops of `Join` and `LeftJoin` -/

lemma joinInner_spec {right : DataTable} (hr : WF right)
    (fn : Row → Row → Bool) (l : Row) :
    joinInner right fn l (intRange right.nrow)
      = some ((right.rows.filter (fn l)).map (fun r => l ++ r)) := by
  suffices h : ∀ (rest : List Row) (k : Nat), right.rows.drop k = rest →
      joinInner right fn l ((List.range' k rest.length).map Int.ofNat)
        = some ((rest.filter (fn l)).map (fun r => l ++ r)) by
    have h0 := h right.rows 0 (by simp)
    rw [intRange_eq, hr.1]
    exact h0
  intro rest
  induction rest with
  | nil => intro k _; simp [joinInner]
  | cons r rest ih =>
    intro k hk
    rw [List.length_cons, range'_map_ofNat_succ]
    have h1 : right.getRow (k : Int) = some r := getRow_of_drop hr.2 hk
    have h2 := ih (k + 1) (drop_cons_succ hk)
    cases hfn : fn l r <;> simp [joinInner, h1, h2, List.filter_cons, hfn]

lemma joinOuter_spec {left right : DataTable} (hl : WF left) (hr : WF right)
    (fn : Row → Row → Bool) :
    joinOuter left right fn (intRange left.nrow)
      = some (left.rows.flatMap
          (fun l => (right.rows.filter (fn l)).map (fun r => l ++ r))) := by
  suffices h : ∀ (rest : List Row) (k : Nat), left.rows.drop k = rest →
      joinOuter left right fn ((List.range' k rest.length).map Int.ofNat)
        = some (rest.flatMap
            (fun l => (right.rows.filter (fn l)).map (fun r => l ++ r))) by
    have h0 := h left.rows 0 (by simp)
    rw [intRange_eq, hl.1]
    exact h0
  intro rest
  induction rest with
  | nil => intro k _; simp [joinOuter]
  | cons l rest ih =>
    intro k hk
    rw [List.length_cons, range'_map_ofNat_succ]
    have h1 : left.getRow (k : Int) = some l := getRow_of_drop hl.2 hk
    have h2 := ih (k + 1) (drop_cons_succ hk)
    simp [joinOuter, h1, h2, joinInner_spec hr]

lemma leftJoinOuter_spec {left right : DataTable} (hl : WF left) (hr : WF right)
    (fn : Row → Row → Bool) :
    leftJoinOuter left right fn (intRange left.nrow)
      = some (left.rows.flatMap (fun l =>
          let ms := (right.rows.filter (fn l)).map (fun r => l ++ r)
          if ms.isEmpty then [l ++ List.replicate right.ncol ""] else ms)) := by
  suffices h : ∀ (rest : List Row) (k : Nat), left.rows.drop k = rest →
      leftJoinOuter left right fn ((List.range' k rest.length).map Int.ofNat)
        = some (rest.flatMap (fun l =>
            let ms := (right.rows.filter (fn l)).map (fun r => l ++ r)
            if ms.isEmpty then [l ++ List.replicate right.ncol ""] else ms)) by
    have h0 := h left.rows 0 (by simp)
    rw [intRange_eq, hl.1]
    exact h0
  intro rest
  induction rest with
  | nil => intro k _; simp [leftJoinOuter]
  | cons l rest ih =>
    intro k hk
    rw [List.length_cons, range'_map_ofNat_succ]
    have h1 : left.getRow (k : Int) = some l := getRow_of_drop hl.2 hk
    have h2 := ih (k + 1) (drop_cons_succ hk)
    simp [leftJoinOuter, h1, h2, joinInner_spec hr]

/-! ### The hash table of `HashJoin` -/

lemma buildHT_spec {larger : DataTable} (hlg : WF larger)
    (fnLarge : Row → String) :
    ∀ (rest : List Row) (k : Nat) (ht : String → List Row),
      larger.rows.drop k = rest →
        buildHT larger fnLarge ((List.range' k rest.length).map Int.ofNat) ht
          = some (fun s => ht s ++ rest.filter (fun row => fnLarge row == s)) := by
  intro rest
  induction rest with
  | nil => intro k ht _; simp [buildHT]
  | cons r rest ih =>
    intro k ht hk
    rw [List.length_cons, range'_map_ofNat_succ]
    have h1 := getRow_of_drop hlg.2 hk
    have h2 := ih (k + 1)
      (fun s => if s = fnLarge r then ht s ++ [r] else ht s)
      (drop_cons_succ hk)
    simp only [buildHT, h1, h2, Option.some.injEq]
    funext s
    by_cases hs : fnLarge r = s
    · subst hs
      simp [List.filter_cons]
    · have hb : (fnLarge r == s) = false := beq_eq_false_iff_ne.mpr hs
      simp [List.filter_cons, hb, Ne.symm hs]

lemma probeHT_spec {smaller : DataTable} (hsm : WF smaller)
    (fnSmall : Row → String) (fnJoin : Row → Row → Row)
    (ht : String → List Row) :
    probeHT smaller fnSmall fnJoin ht (intRange smaller.nrow)
      = some (smaller.rows.flatMap
          (fun s => (ht (fnSmall s)).map (fnJoin s))) := by
  suffices h : ∀ (rest : List Row) (k : Nat), smaller.rows.drop k = rest →
      probeHT smaller fnSmall fnJoin ht ((List.range' k rest.length).map Int.ofNat)
        = some (rest.flatMap (fun s => (ht (fnSmall s)).map (fnJoin s))) by
    have h0 := h smaller.rows 0 (by simp)
    rw [intRange_eq, hsm.1]
    exact h0
  intro rest
  induction rest with
  | nil => intro k _; simp [probeHT]
  | cons s rest ih =>
    intro k hk
    rw [List.length_cons, range'_map_ofNat_succ]
    have h1 : smaller.getRow (k : Int) = some s := getRow_of_drop hsm.2 hk
    have h2 := ih (k + 1) (drop_cons_succ hk)
    simp [probeHT, h1, h2]

/-- The producer of `HashJoin` emits, for each smaller-table row in order,
one joined row per larger-table row with the same key, in the larger
table's row order. -/
lemma hashJoinCore_spec {smaller larger : DataTable} (hsm : WF smaller)
    (hlg : WF larger) (fnSmall fnLarge : Row → String)
    (fnJoin : Row → Row → Row) :
    hashJoinCore smaller larger fnSmall fnLarge fnJoin
      = some (smaller.rows.flatMap (fun s =>
          ((larger.rows.filter (fun row => fnLarge row == fnSmall s)).map
            (fnJoin s)))) := by
  have hb : buildHT larger fnLarge (intRange larger.nrow) (fun _ => [])
      = some (fun s => larger.rows.filter (fun row => fnLarge row == s)) := by
    have h := buildHT_spec hlg fnLarge larger.rows 0 (fun _ => []) (by simp)
    rw [intRange_eq, hlg.1]
    simpa using h
  unfold hashJoinCore
  rw [hb]
  exact probeHT_spec hsm fnSmall fnJoin
    (fun s => larger.rows.filter (fun row => fnLarge row == s))

/-! ### Helpers for the multiset comparison of the two join algorithms -/

lemma string_beq_symm (a b : String) : (a == b) = (b == a) := by
  by_cases h : a = b
  · subst h; rfl
  · rw [beq_eq_false_iff_ne.mpr h, beq_eq_false_iff_ne.mpr (Ne.symm h)]

lemma filter_map_eq_flatMap {α β : Type} (l : List α) (p : α → Bool)
    (g : α → β) :
    (l.filter p).map g = l.flatMap (fun a => if p a then [g a] else []) := by
  induction l with
  | nil => rfl
  | cons a l ih => cases h : p a <;> simp [List.filter_cons, h, ih]

/-! ### Row-level descriptions of the three join operators -/

lemma join_spec {left right : DataTable} (hl : WF left) (hr : WF right)
    (fn : Row → Row → Bool) :
    join left right fn
      = some { rows := left.rows.flatMap
                 (fun l => (right.rows.filter (fn l)).map (fun r => l ++ r)),
               nrow := (left.rows.flatMap
                 (fun l => (right.rows.filter (fn l)).map (fun r => l ++ r))).length,
               ncol := left.ncol + right.ncol } := by
  unfold join
  rw [joinOuter_spec hl hr fn, Option.map_some']
  congr 1
  apply collectRows_spec
  intro row hrow
  obtain ⟨l, hlmem, hrow2⟩ := List.mem_flatMap.mp hrow
  obtain ⟨r, hrmem, rfl⟩ := List.mem_map.mp hrow2
  have hrlen : r.length = right.ncol := hr.2 r (List.mem_of_mem_filter hrmem)
  simp [hl.2 l hlmem, hrlen]

lemma leftJoin_spec_rows {left right : DataTable} (hl : WF left) (hr : WF right)
    (fn : Row → Row → Bool) :
    leftJoin left right fn
      = some { rows := left.rows.flatMap (fun l =>
                 let ms := (right.rows.filter (fn l)).map (fun r => l ++ r)
                 if ms.isEmpty then [l ++ List.replicate right.ncol ""] else ms),
               nrow := (left.rows.flatMap (fun l =>
                 let ms := (right.rows.filter (fn l)).map (fun r => l ++ r)
                 if ms.isEmpty then [l ++ List.replicate right.ncol ""] else ms)).length,
               ncol := left.ncol + right.ncol } := by
  unfold leftJoin
  rw [leftJoinOuter_spec hl hr fn, Option.map_some']
  congr 1
  apply collectRows_spec
  intro row hrow
  obtain ⟨l, hlmem, hrow2⟩ := List.mem_flatMap.mp hrow
  by_cases hempty :
      (List.map (fun r => l ++ r) (List.filter (fn l) right.rows)).isEmpty
  · rw [if_pos hempty] at hrow2
    simp only [List.mem_singleton] at hrow2
    subst hrow2
    simp [hl.2 l hlmem]
  · rw [if_neg hempty] at hrow2
    obtain ⟨r, hrmem, rfl⟩ := List.mem_map.mp hrow2
    have hrlen : r.length = right.ncol := hr.2 r (List.mem_of_mem_filter hrmem)
    simp [hl.2 l hlmem, hrlen]

/-- `HashJoin` when the left table is strictly larger: the hash table holds
the left rows and the probe runs over the right rows. -/
lemma hashJoin_spec_gt {left right : DataTable} (hl : WF left) (hr : WF right)
    (fnLeft fnRight : Row → String) (hgt : left.nrow > right.nrow) :
    hashJoin left right fnLeft fnRight
      = some { rows := right.rows.flatMap (fun s =>
                 (left.rows.filter (fun row => fnLeft row == fnRight s)).map
                   (fun l => l ++ s)),
               nrow := (right.rows.flatMap (fun s =>
                 (left.rows.filter (fun row => fnLeft row == fnRight s)).map
                   (fun l => l ++ s))).length,
               ncol := left.ncol + right.ncol } := by
  unfold hashJoin smallerOf largerOf fnSmallOf fnLargeOf fnJoinOf
  rw [if_pos hgt, if_pos hgt, if_pos hgt, if_pos hgt, if_pos hgt,
    hashJoinCore_spec hr hl fnRight fnLeft (fun s l => l ++ s),
    Option.map_some']
  congr 1
  apply collectRows_spec
  intro row hrow
  obtain ⟨s, hsmem, hrow2⟩ := List.mem_flatMap.mp hrow
  obtain ⟨l, hlmem, rfl⟩ := List.mem_map.mp hrow2
  have hllen : l.length = left.ncol := hl.2 l (List.mem_of_mem_filter hlmem)
  simp [hr.2 s hsmem, hllen]

/-- `HashJoin` when the right table is at least as large (ties included):
the hash table holds the right rows and the probe runs over the left
rows. -/
lemma hashJoin_spec_le {left right : DataTable} (hl : WF left) (hr : WF right)
    (fnLeft fnRight : Row → String) (hle : ¬ left.nrow > right.nrow) :
    hashJoin left right fnLeft fnRight
      = some { rows := left.rows.flatMap (fun s =>
                 (right.rows.filter (fun row => fnRight row == fnLeft s)).map
                   (fun r => s ++ r)),
               nrow := (left.rows.flatMap (fun s =>
                 (right.rows.filter (fun row => fnRight row == fnLeft s)).map
                   (fun r => s ++ r))).length,
               ncol := left.ncol + right.ncol } := by
  unfold hashJoin smallerOf largerOf fnSmallOf fnLargeOf fnJoinOf
  rw [if_neg hle, if_neg hle, if_neg hle, if_neg hle, if_neg hle,
    hashJoinCore_spec hl hr fnLeft fnRight (fun s r => s ++ r),
    Option.map_some']
  congr 1
  apply collectRows_spec
  intro row hrow
  obtain ⟨s, hsmem, hrow2⟩ := List.mem_flatMap.mp hrow
  obtain ⟨r, hrmem, rfl⟩ := List.mem_map.mp hrow2
  have hrlen : r.length = right.ncol := hr.2 r (List.mem_of_mem_filter hrmem)
  simp [hl.2 s hsmem, hrlen]

/-! ## Claim theorems -/

/-- C5: `AppendRow` succeeds iff the candidate row's length equals
`col_count`; a wrongly-sized row yields the `ColumnCountMismatch` error
(`errNumCol`), the error return leaving the receiver's rows and counters
untouched; a correctly-sized row appends exactly that one row and
increments `row_count`. -/
theorem appendRow_spec (dt : DataTable) (row : Row) :
    ((∃ dt', dt.appendRow row = .ok dt') ↔ row.length = dt.ncol) ∧
    (row.length ≠ dt.ncol → dt.appendRow row = .error .errNumCol) ∧
    (∀ dt', dt.appendRow row = .ok dt' →
      dt'.rows = dt.rows ++ [row] ∧ dt'.nrow = dt.nrow + 1 ∧
        dt'.ncol = dt.ncol) := by
  unfold DataTable.appendRow
  by_cases h : row.length = dt.ncol
  · refine ⟨⟨fun _ => h,
      fun _ => ⟨{ dt with rows := dt.rows ++ [row], nrow := dt.nrow + 1 },
        by simp [h]⟩⟩, fun hne => absurd h hne, ?_⟩
    intro dt' hdt'
    rw [if_neg (by simp [h]), Except.ok.injEq] at hdt'
    subst hdt'
    simp
  · refine ⟨⟨?_, fun hlen => absurd hlen h⟩, fun _ => by simp [h], ?_⟩
    · rintro ⟨dt', hdt'⟩
      rw [if_pos h] at hdt'
      cases hdt'
    · intro dt' hdt'
      rw [if_pos h] at hdt'
      cases hdt'

theorem appendRow_spec_witness :
    DataTable.appendRow { rows := [["a"]], nrow := 1, ncol := 1 } ["x", "y"]
      = Except.error DTError.errNumCol :=
  (appendRow_spec { rows := [["a"]], nrow := 1, ncol := 1 } ["x", "y"]).2.1
    (by decide)

/-- C6: `RemoveColumn` on a single-column table fails with
`LastColumnRemoval` (`errSingleCol`), the error return leaving the table
unchanged; on a wider table with a valid index it deletes cell `y` from
every row (shifting the later cells left, i.e. `List.eraseIdx`) and
decrements `col_count`. -/
theorem removeColumn_spec (dt : DataTable) (y : Int) (hwf : WF dt) :
    (dt.ncol = 1 → dt.removeColumn y = .singleCol) ∧
    (1 < dt.ncol → 0 ≤ y → y < (dt.ncol : Int) →
      dt.removeColumn y
        = .ok { rows := dt.rows.map (fun r => r.eraseIdx y.toNat),
                nrow := dt.nrow, ncol := dt.ncol - 1 }) := by
  constructor
  · intro h1
    unfold DataTable.removeColumn
    rw [if_pos h1]
  · intro hgt h0 hy
    unfold DataTable.removeColumn
    rw [if_neg (by omega)]
    rw [mapM_eq_map_of_some (removeColumnRow y) (fun r => r.eraseIdx y.toNat)]
    intro r hr
    have hlen : r.length = dt.ncol := hwf.2 r hr
    rw [removeColumnRow, if_pos ⟨h0, by omega⟩, List.eraseIdx_eq_take_drop_succ]

theorem removeColumn_spec_witness :
    DataTable.removeColumn { rows := [["a", "b"], ["c", "d"]], nrow := 2, ncol := 2 } 0
      = RemoveColumnResult.ok { rows := [["b"], ["d"]], nrow := 2, ncol := 1 } := by
  have h := (removeColumn_spec
    { rows := [["a", "b"], ["c", "d"]], nrow := 2, ncol := 2 } 0
    (by decide)).2 (by decide) (by decide) (by decide)
  simpa using h

/-- C3, counterexample: marshalling the empty 3-column table and
unmarshalling the result yields a table with `col_count = 0`, not the
original `col_count = 3`: decoding infers the column count from the first
row and an empty table has none, so the round-trip does not preserve
`col_count` for zero-row tables. -/
theorem marshal_unmarshal_empty_counterexample :
    unmarshalJSON (DataTable.marshalJSON (DataTable.newDataTable 3))
        = Except.ok { rows := [], nrow := 0, ncol := 0 } ∧
      (DataTable.newDataTable 3).ncol ≠ 0 := by
  exact ⟨rfl, by decide⟩

/-- C3, amended: encode-then-decode preserves `row_count` and every cell;
it preserves `col_count` whenever the table has at least one row, while a
zero-row table decodes with `col_count = 0` (whatever its original
`col_count`). -/
theorem marshal_unmarshal_roundtrip (dt : DataTable) (hwf : WF dt) :
    ∃ dt', unmarshalJSON dt.marshalJSON = .ok dt' ∧
      dt'.rows = dt.rows ∧ dt'.nrow = dt.nrow ∧
      (0 < dt.nrow → dt'.ncol = dt.ncol) ∧
      (dt.nrow = 0 → dt'.ncol = 0) := by
  unfold unmarshalJSON DataTable.marshalJSON
  cases hrows : dt.rows with
  | nil =>
    have hn : dt.nrow = 0 := by rw [hwf.1, hrows]; rfl
    refine ⟨{ rows := [], nrow := 0, ncol := 0 }, ?_, by simp [hrows],
      by simp [hn], ?_, ?_⟩
    · simp [unmarshalNcol]
    · intro h; omega
    · intro _; rfl
  | cons r rest =>
    have hmemr : r ∈ dt.rows := by rw [hrows]; exact List.mem_cons_self r rest
    have hlenr := hwf.2 r hmemr
    have hncol : unmarshalNcol (r :: rest) = dt.ncol := by
      simp [unmarshalNcol, hlenr]
    rw [if_neg]
    · refine ⟨_, rfl, rfl, ?_, ?_, ?_⟩
      · rw [hwf.1, hrows]
      · intro _
        simpa using hncol
      · intro h0
        rw [hwf.1, hrows] at h0
        simp at h0
    · rintro ⟨-, hno⟩
      apply hno
      rw [List.all_eq_true]
      intro row hrow
      have hrowlen := hwf.2 row (by rw [hrows]; exact hrow)
      simp [hrowlen, hncol]

theorem marshal_unmarshal_roundtrip_witness :
    unmarshalJSON (DataTable.marshalJSON
        { rows := [["a", "b"]], nrow := 1, ncol := 2 })
      = Except.ok { rows := [["a", "b"]], nrow := 1, ncol := 2 } := by
  obtain ⟨dt', h1, h2, h3, h4, _⟩ :=
    marshal_unmarshal_roundtrip { rows := [["a", "b"]], nrow := 1, ncol := 2 }
      (by decide)
  obtain ⟨rws, nr, nc⟩ := dt'
  simp only at h2 h3
  have h4' := h4 (by decide)
  simp only at h4'
  rw [h1, h2, h3, h4']

/-- C7, counterexample: `Slice` performs no validation of its arguments.
With a one-row table, `Slice(1, 5)` has its start index `1` outside
`[0, row_count) = [0, 1)`, yet it succeeds and returns an empty table
instead of failing with `IndexOutOfRange`. -/
theorem slice_start_eq_nrow_counterexample :
    DataTable.slice { rows := [["a"]], nrow := 1, ncol := 1 } 1 5
        = some { rows := [], nrow := 0, ncol := 1 } ∧
      ¬ ((1 : Int) < (({ rows := [["a"]], nrow := 1, ncol := 1 } : DataTable).nrow : Int)) := by
  exact ⟨rfl, by decide⟩

/-- C7, amended: `Slice(start, count)` succeeds exactly when
`0 ≤ start ≤ row_count` and `count ≥ 0` (note `start = row_count` is
accepted, yielding an empty slice), returning rows
`[start, min(start+count, row_count))` in original order, truncated when
`count` exceeds the remaining rows; any other arguments cause an
index-out-of-range panic — the code has no explicit `IndexOutOfRange` or
`InvalidArgument` error returns. -/
theorem slice_spec (dt : DataTable) (x n : Int) (hwf : WF dt) :
    (0 ≤ x ∧ x ≤ (dt.nrow : Int) ∧ 0 ≤ n →
      dt.slice x n
        = some { rows := (dt.rows.take (min (x + n) (dt.nrow : Int)).toNat).drop x.toNat,
                 nrow := ((dt.rows.take (min (x + n) (dt.nrow : Int)).toNat).drop x.toNat).length,
                 ncol := dt.ncol }) ∧
    (¬ (0 ≤ x ∧ x ≤ (dt.nrow : Int) ∧ 0 ≤ n) → dt.slice x n = none) := by
  have hlen : dt.rows.length = dt.nrow := hwf.1.symm
  have he : (if x + n ≥ (dt.nrow : Int) then (dt.nrow : Int) else x + n)
      = min (x + n) (dt.nrow : Int) := by
    rw [Int.min_def]
    split <;> split <;> omega
  constructor
  · rintro ⟨h0, h1, h2⟩
    simp only [DataTable.slice, he]
    rw [if_pos ⟨h0, by omega, by omega⟩]
  · intro hneg
    simp only [DataTable.slice, he]
    rw [if_neg]
    rintro ⟨g0, g1, g2⟩
    exact hneg ⟨g0, by omega, by omega⟩

theorem slice_spec_witness :
    DataTable.slice { rows := [["a"], ["b"], ["c"]], nrow := 3, ncol := 1 } 1 5
      = some { rows := [["b"], ["c"]], nrow := 2, ncol := 1 } := by
  have h := (slice_spec { rows := [["a"], ["b"], ["c"]], nrow := 3, ncol := 1 }
    1 5 (by decide)).1 (by decide)
  simpa using h

lemma goIdx_getD_str {row : Row} {y : Int} (h0 : 0 ≤ y)
    (h1 : y.toNat < row.length) :
    goIdx row y = some (row.getD y.toNat "") := by
  rw [goIdx, if_pos h0, List.getElem?_eq_getElem h1,
    List.getD_eq_getElem row "" h1]

/-- C8, counterexample: on a zero-row table, `GetColumn` never touches a
row, so an out-of-range column index (here `5` against `col_count = 3`)
does not fail at all — the call succeeds and returns an empty column
instead of an `IndexOutOfRange` failure. -/
theorem getColumn_empty_table_counterexample :
    (DataTable.newDataTable 3).getColumn 5 = some [] ∧
      ¬ ((5 : Int) < ((DataTable.newDataTable 3).ncol : Int)) := by
  exact ⟨rfl, by decide⟩

/-- C8, amended: `GetRow` fails (index panic) exactly when `x` is outside
`[0, row_count)` and otherwise returns a fresh copy of row `x` with
exactly `col_count` cells; `GetColumn` returns the column values for a
valid `y`, fails for an invalid `y` only when the table has at least one
row, and on a zero-row table succeeds with the empty column for every `y`.
(The Go-level guarantee that the returned slices are defensive copies,
unaffected by later in-place mutation of the table, is a memory-aliasing
property; in this embedding it corresponds to `GetRow`/`GetColumn`
returning values built by `goMakeCopy`/fresh list construction rather
than the stored rows themselves.) -/
theorem getRow_getColumn_spec (dt : DataTable) (x y : Int) (hwf : WF dt) :
    (0 ≤ x ∧ x < (dt.nrow : Int) →
      dt.getRow x = some (dt.rows.getD x.toNat []) ∧
      (dt.rows.getD x.toNat []).length = dt.ncol) ∧
    (¬ (0 ≤ x ∧ x < (dt.nrow : Int)) → dt.getRow x = none) ∧
    (0 ≤ y ∧ y < (dt.ncol : Int) →
      dt.getColumn y = some (dt.rows.map (fun r => r.getD y.toNat ""))) ∧
    (¬ (0 ≤ y ∧ y < (dt.ncol : Int)) → 0 < dt.nrow → dt.getColumn y = none) ∧
    (dt.nrow = 0 → dt.getColumn y = some []) := by
  refine ⟨?_, getRow_none_of_invalid hwf, ?_, ?_, ?_⟩
  · rintro ⟨h0, h1⟩
    have hlt : x.toNat < dt.rows.length := by rw [← hwf.1]; omega
    have hgetD : dt.rows.getD x.toNat [] = dt.rows[x.toNat] :=
      List.getD_eq_getElem dt.rows [] hlt
    have hlen : dt.rows[x.toNat].length = dt.ncol :=
      hwf.2 _ (List.getElem_mem hlt)
    constructor
    · unfold DataTable.getRow
      rw [goIdx, if_pos h0, List.getElem?_eq_getElem hlt, Option.map_some',
        goMakeCopy_of_length hlen, hgetD]
    · rw [hgetD]; exact hlen
  · rintro ⟨h0, h1⟩
    unfold DataTable.getColumn
    rw [mapM_eq_map_of_some (fun row => goIdx row y)
      (fun row => row.getD y.toNat "")]
    · have hlen : (dt.rows.map (fun row => row.getD y.toNat "")).length
          = dt.nrow := by
        rw [List.length_map, ← hwf.1]
      have hh := hwf.1
      simp [hlen]
      omega
    · intro row hrow
      exact goIdx_getD_str h0 (by have := hwf.2 row hrow; omega)
  · intro hinv hpos
    cases hrows : dt.rows with
    | nil =>
      rw [hwf.1, hrows] at hpos
      simp at hpos
    | cons r rest =>
      have hrlen : r.length = dt.ncol :=
        hwf.2 r (by rw [hrows]; exact List.mem_cons_self r rest)
      have hnone : goIdx r y = none := by
        apply goIdx_eq_none_of_invalid
        rintro ⟨g0, g1⟩
        exact hinv ⟨g0, by omega⟩
      unfold DataTable.getColumn
      rw [hrows, List.mapM_cons, hnone]
      rfl
  · intro h0
    have hnil : dt.rows = [] :=
      List.length_eq_zero.mp (by rw [← hwf.1]; exact h0)
    unfold DataTable.getColumn
    rw [hnil, h0]
    rfl

theorem getRow_getColumn_spec_witness :
    DataTable.getRow { rows := [["a", "b"], ["c", "d"]], nrow := 2, ncol := 2 } 1
        = some ["c", "d"] ∧
      DataTable.getColumn { rows := [["a", "b"], ["c", "d"]], nrow := 2, ncol := 2 } 0
        = some ["a", "c"] := by
  have h := getRow_getColumn_spec
    { rows := [["a", "b"], ["c", "d"]], nrow := 2, ncol := 2 } 1 0 (by decide)
  exact ⟨by simpa using (h.1 (by decide)).1, by simpa using h.2.2.1 (by decide)⟩

lemma applyColumnAux_spec {ε : Type} {ncol : Nat}
    (fn : Nat → String → Except ε Unit) {y : Int} (h0 : 0 ≤ y)
    (hy : y < (ncol : Int)) :
    ∀ (rows : List Row) (k : Nat), (∀ r ∈ rows, r.length = ncol) →
      applyColumnAux fn y k rows =
        match (rows.enumFrom k).findSome? (fun p =>
            match fn p.1 (p.2.getD y.toNat "") with
            | .error e => some e
            | .ok _ => none) with
        | some e => .error e
        | none => .ok := by
  intro rows
  induction rows with
  | nil => intro k _; rfl
  | cons row rest ih =>
    intro k hall
    have hrow := hall row (List.mem_cons_self row rest)
    have hidx : goIdx row y = some (row.getD y.toNat "") :=
      goIdx_getD_str h0 (by omega)
    rw [List.enumFrom_cons, List.findSome?_cons]
    cases hfn : fn k (row.getD y.toNat "") with
    | error e => simp only [applyColumnAux, hidx, hfn]
    | ok u =>
      simp only [applyColumnAux, hidx, hfn]
      exact ih (k + 1) (fun r hr => hall r (List.mem_cons_of_mem row hr))

/-- C9, counterexample: on a zero-row table `ApplyColumn` visits no row,
so an out-of-range column index (here `7` against `col_count = 3`)
succeeds instead of failing with `IndexOutOfRange` — even with a callback
that always errors. -/
theorem applyColumn_empty_table_counterexample :
    DataTable.applyColumn (DataTable.newDataTable 3)
        (fun _ _ => (Except.error 0 : Except Nat Unit)) 7
      = ApplyColumnResult.ok := rfl

/-- C9, amended: for a valid column index, `ApplyColumn` calls `fn` on
`(row index, value)` in increasing row order, stops at and returns the
first error `fn` yields (later rows unvisited), and returns success when
no call errs — equivalently, its result is determined by the first hit of
`findSome?` over the enumerated column.  There is no up-front index
check: an invalid `y` panics only when the table has at least one row,
and on a zero-row table every `y` succeeds. -/
theorem applyColumn_spec {ε : Type} (dt : DataTable)
    (fn : Nat → String → Except ε Unit) (y : Int) (hwf : WF dt) :
    (0 ≤ y ∧ y < (dt.ncol : Int) →
      dt.applyColumn fn y =
        match dt.rows.enum.findSome? (fun p =>
            match fn p.1 (p.2.getD y.toNat "") with
            | .error e => some e
            | .ok _ => none) with
        | some e => .error e
        | none => .ok) ∧
    (¬ (0 ≤ y ∧ y < (dt.ncol : Int)) → 0 < dt.nrow →
      dt.applyColumn fn y = .panic) ∧
    (dt.nrow = 0 → dt.applyColumn fn y = .ok) := by
  refine ⟨?_, ?_, ?_⟩
  · rintro ⟨h0, hy⟩
    exact applyColumnAux_spec fn h0 hy dt.rows 0 hwf.2
  · intro hinv hpos
    cases hrows : dt.rows with
    | nil =>
      rw [hwf.1, hrows] at hpos
      simp at hpos
    | cons row rest =>
      have hrlen : row.length = dt.ncol :=
        hwf.2 row (by rw [hrows]; exact List.mem_cons_self row rest)
      have hnone : goIdx row y = none := by
        apply goIdx_eq_none_of_invalid
        rintro ⟨g0, g1⟩
        exact hinv ⟨g0, by omega⟩
      unfold DataTable.applyColumn
      rw [hrows]
      simp [applyColumnAux, hnone]
  · intro h0
    have hnil : dt.rows = [] :=
      List.length_eq_zero.mp (by rw [← hwf.1]; exact h0)
    unfold DataTable.applyColumn
    rw [hnil]
    rfl

theorem applyColumn_spec_witness :
    DataTable.applyColumn { rows := [["a"], ["b"], ["c"]], nrow := 3, ncol := 1 }
        (fun i _ => if i = 1 then (Except.error 7 : Except Nat Unit) else .ok ())
        0
      = ApplyColumnResult.error 7 := by
  have h := (applyColumn_spec { rows := [["a"], ["b"], ["c"]], nrow := 3, ncol := 1 }
    (fun i _ => if i = 1 then (Except.error 7 : Except Nat Unit) else .ok ())
    0 (by decide)).1 (by decide)
  rw [h]
  rfl


lemma getRow_some_of_valid {dt : DataTable} {x : Int} (hwf : WF dt)
    (h0 : 0 ≤ x) (h1 : x < (dt.nrow : Int)) :
    dt.getRow x = some (goMakeCopy dt.ncol (dt.rows.getD x.toNat [])) := by
  have hlt : x.toNat < dt.rows.length := by rw [← hwf.1]; omega
  unfold DataTable.getRow
  rw [goIdx, if_pos h0, List.getElem?_eq_getElem hlt, Option.map_some',
    List.getD_eq_getElem dt.rows [] hlt]

lemma appendRow_ok_of_length (dt : DataTable) (row : Row)
    (h : row.length = dt.ncol) :
    ∃ dt', dt.appendRow row = .ok dt' ∧ dt'.ncol = dt.ncol := by
  refine ⟨{ dt with rows := dt.rows ++ [row], nrow := dt.nrow + 1 }, ?_, rfl⟩
  unfold DataTable.appendRow
  rw [if_neg (by simp [h])]

lemma mem_intRange {n : Nat} {x : Int} (hx : x ∈ intRange n) :
    0 ≤ x ∧ x < (n : Int) := by
  rw [intRange] at hx
  obtain ⟨k, hk, rfl⟩ := List.mem_map.mp hx
  rw [List.mem_range] at hk
  exact ⟨Int.ofNat_nonneg k, by simpa using hk⟩

lemma projectAux_ok (ys : List Int) {ncol : Nat}
    (hys : ∀ y ∈ ys, 0 ≤ y ∧ y < (ncol : Int)) :
    ∀ (rows : List Row) (dt2 : DataTable),
      (∀ r ∈ rows, r.length = ncol) → dt2.ncol = ys.length →
      ∃ res, projectAux ys rows dt2 = .ok res := by
  intro rows
  induction rows with
  | nil => intro dt2 _ _; exact ⟨dt2, rfl⟩
  | cons row rest ih =>
    intro dt2 hall hcols
    have hrow := hall row (List.mem_cons_self row rest)
    have hmap : ys.mapM (fun y => goIdx row y)
        = some (ys.map (fun y => row.getD y.toNat "")) := by
      apply mapM_eq_map_of_some
      intro y hy
      obtain ⟨hy0, hy1⟩ := hys y hy
      exact goIdx_getD_str hy0 (by omega)
    obtain ⟨dt2', happ, hcols'⟩ := appendRow_ok_of_length
      dt2 (ys.map (fun y => row.getD y.toNat ""))
      (by simp [hcols])
    simp only [projectAux, hmap, happ]
    exact ih dt2' (fun r hr => hall r (List.mem_cons_of_mem row hr))
      (by rw [hcols', hcols])

lemma mergeRow_some (ncolA : Nat) (colMap : Int → Option Int) (row2 : Row)
    (hmap : ∀ y1 y2, colMap y1 = some y2 → 0 ≤ y2 ∧ y2 < (row2.length : Int)) :
    mergeRow ncolA colMap row2
      = some ((List.range ncolA).map (fun y1 =>
          match colMap (Int.ofNat y1) with
          | some y2 => row2.getD y2.toNat ""
          | none => "")) := by
  apply mapM_eq_map_of_some
  intro y1 _
  cases hc : colMap (Int.ofNat y1) with
  | none => rfl
  | some y2 =>
    obtain ⟨h0, h1⟩ := hmap _ _ hc
    exact goIdx_getD_str h0 (by omega)

lemma mergeAux_ok {dtb : DataTable} (colMap : Int → Option Int) (hb : WF dtb)
    (hmap : ∀ y1 y2, colMap y1 = some y2 → 0 ≤ y2 ∧ y2 < (dtb.ncol : Int)) :
    ∀ (xs : List Int) (dta : DataTable),
      (∀ x ∈ xs, 0 ≤ x ∧ x < (dtb.nrow : Int)) →
      ∃ res, mergeAux dtb colMap xs dta = .ok res := by
  intro xs
  induction xs with
  | nil => intro dta _; exact ⟨dta, rfl⟩
  | cons x rest ih =>
    intro dta hall
    obtain ⟨hx0, hx1⟩ := hall x (List.mem_cons_self x rest)
    have hget := getRow_some_of_valid hb hx0 hx1
    have hlen2 : (goMakeCopy dtb.ncol (dtb.rows.getD x.toNat [])).length
        = dtb.ncol := goMakeCopy_length _ _
    have hrow1 := mergeRow_some dta.ncol colMap
      (goMakeCopy dtb.ncol (dtb.rows.getD x.toNat []))
      (fun y1 y2 hc => by
        obtain ⟨h0, h1⟩ := hmap y1 y2 hc
        exact ⟨h0, by omega⟩)
    obtain ⟨dta', happ, _⟩ := appendRow_ok_of_length dta
      ((List.range dta.ncol).map (fun y1 =>
        match colMap (Int.ofNat y1) with
        | some y2 => (goMakeCopy dtb.ncol (dtb.rows.getD x.toNat [])).getD y2.toNat ""
        | none => ""))
      (by simp)
    simp only [mergeAux, hget, hrow1, happ]
    exact ih dta' (fun i hi => hall i (List.mem_cons_of_mem x hi))

/-- C10: over a source table whose rows all have `col_count` cells and
valid projection indices, every row `Project` builds has exactly the
destination table's column count, so its internal `AppendRow` always
succeeds and the defensive `panic("Row data corrupted")` branch is
unreachable; likewise `Merge` over a wellformed source table and a column
map whose source indices are valid always completes with `.ok`. -/
theorem project_merge_no_panic :
    (∀ (dt : DataTable) (ys : List Int),
      (∀ r ∈ dt.rows, r.length = dt.ncol) →
      (∀ y ∈ ys, 0 ≤ y ∧ y < (dt.ncol : Int)) →
      ∃ res, dt.project ys = .ok res) ∧
    (∀ (dta dtb : DataTable) (colMap : Int → Option Int),
      WF dtb →
      (∀ y1 y2, colMap y1 = some y2 → 0 ≤ y2 ∧ y2 < (dtb.ncol : Int)) →
      ∃ res, dta.merge dtb colMap = .ok res) := by
  constructor
  · intro dt ys hrows hys
    unfold DataTable.project
    exact projectAux_ok ys hys dt.rows (DataTable.newDataTable ys.length)
      hrows rfl
  · intro dta dtb colMap hb hmap
    unfold DataTable.merge
    exact mergeAux_ok colMap hb hmap (intRange dtb.nrow) dta
      (fun x hx => mem_intRange hx)

theorem project_merge_no_panic_witness :
    DataTable.project { rows := [["a", "b", "c"]], nrow := 1, ncol := 3 } [0, 2]
        ≠ .panic GoPanic.rowDataCorrupted ∧
      DataTable.merge (DataTable.newDataTable 2)
          { rows := [["p", "q"]], nrow := 1, ncol := 2 }
          (fun y1 => if y1 = 0 then some 1 else none)
        ≠ .panic GoPanic.rowDataCorrupted := by
  constructor
  · obtain ⟨res, hres⟩ := project_merge_no_panic.1
      { rows := [["a", "b", "c"]], nrow := 1, ncol := 3 } [0, 2]
      (by decide) (by decide)
    rw [hres]
    simp
  · obtain ⟨res, hres⟩ := project_merge_no_panic.2
      (DataTable.newDataTable 2) { rows := [["p", "q"]], nrow := 1, ncol := 2 }
      (fun y1 => if y1 = 0 then some 1 else none) (by decide)
      (fun y1 y2 h => by
        simp only at h
        by_cases h0 : y1 = 0
        · simp [h0] at h
          simp
          omega
        · simp [h0] at h)
    rw [hres]
    simp

lemma flatMap_length_ge {α β : Type} (l : List α) (f : α → List β)
    (h : ∀ a ∈ l, f a ≠ []) : l.length ≤ (l.flatMap f).length := by
  induction l with
  | nil => simp
  | cons a l ih =>
    simp only [List.flatMap_cons, List.length_append, List.length_cons]
    have h1 : 1 ≤ (f a).length := by
      have hne := h a (List.mem_cons_self a l)
      cases hf : f a with
      | nil => exact absurd hf hne
      | cons b bs => simp
    have h2 := ih (fun b hb => h b (List.mem_cons_of_mem a hb))
    omega

/-- C4: `LeftJoin` emits, for each left row in order, the concatenations
with all matching right rows in order, with exactly one padded row
`l ++ (right.col_count empty strings)` substituted iff that left row
matched no right row; hence every left row contributes at least one
output row (`left.nrow ≤ res.nrow`) and unmatched right rows contribute
nothing (the output is exhausted by the per-left-row blocks). -/
theorem leftJoin_padding_spec (left right : DataTable)
    (fn : Row → Row → Bool) (hl : WF left) (hr : WF right) :
    ∃ res, leftJoin left right fn = some res ∧
      res.rows = left.rows.flatMap (fun l =>
        let ms := (right.rows.filter (fn l)).map (fun r => l ++ r)
        if ms.isEmpty then [l ++ List.replicate right.ncol ""] else ms) ∧
      res.nrow = res.rows.length ∧
      res.ncol = left.ncol + right.ncol ∧
      left.nrow ≤ res.nrow := by
  refine ⟨_, leftJoin_spec_rows hl hr fn, rfl, rfl, rfl, ?_⟩
  show left.nrow ≤ (left.rows.flatMap _).length
  rw [hl.1]
  apply flatMap_length_ge
  intro l _
  by_cases hms : ((right.rows.filter (fn l)).map (fun r => l ++ r)).isEmpty
  · simp [hms]
  · simp only [if_neg hms]
    intro hnil
    rw [hnil] at hms
    exact hms rfl

theorem leftJoin_padding_spec_witness :
    (leftJoin
        { rows := [["a", "b", "c"], ["e", "f", "g"], ["f", "k", "x"], ["g", "h", "l"]],
          nrow := 4, ncol := 3 }
        { rows := [["a", "1"], ["f", "2"], ["k", "3"]], nrow := 3, ncol := 2 }
        (fun l r => l.headD "" == r.headD "")).map DataTable.rows
      = some [["a", "b", "c", "a", "1"], ["e", "f", "g", "", ""],
          ["f", "k", "x", "f", "2"], ["g", "h", "l", "", ""]] := by
  obtain ⟨res, h1, h2, _⟩ := leftJoin_padding_spec
    { rows := [["a", "b", "c"], ["e", "f", "g"], ["f", "k", "x"], ["g", "h", "l"]],
      nrow := 4, ncol := 3 }
    { rows := [["a", "1"], ["f", "2"], ["k", "3"]], nrow := 3, ncol := 2 }
    (fun l r => l.headD "" == r.headD "") (by decide) (by decide)
  rw [h1, Option.map_some', h2]
  rfl

/-- C2: `HashJoin` designates as larger the table picked by the exact test
`left.row_count > right.row_count` — so ties designate the right table —
builds its hash multi-map over the larger table's rows (each key's bucket
being exactly the larger-table rows with that key, in order), and every
emitted row is `left_row ++ right_row` for some pair of input rows with
equal keys, whichever side was designated larger. -/
theorem hashJoin_designation_spec (left right : DataTable)
    (fnLeft fnRight : Row → String) (hl : WF left) (hr : WF right) :
    (left.nrow > right.nrow →
      largerOf left right = left ∧ smallerOf left right = right) ∧
    (left.nrow ≤ right.nrow →
      largerOf left right = right ∧ smallerOf left right = left) ∧
    (∃ ht, buildHT (largerOf left right) (fnLargeOf left right fnLeft fnRight)
        (intRange (largerOf left right).nrow) (fun _ => []) = some ht ∧
      ∀ k, ht k = (largerOf left right).rows.filter
          (fun row => fnLargeOf left right fnLeft fnRight row == k)) ∧
    (∃ res, hashJoin left right fnLeft fnRight = some res ∧
      res.ncol = left.ncol + right.ncol ∧
      ∀ row ∈ res.rows, ∃ l ∈ left.rows, ∃ r ∈ right.rows,
        fnLeft l = fnRight r ∧ row = l ++ r) := by
  have hwfL : WF (largerOf left right) := by
    unfold largerOf
    by_cases h : left.nrow > right.nrow
    · rw [if_pos h]; exact hl
    · rw [if_neg h]; exact hr
  refine ⟨?_, ?_, ?_, ?_⟩
  · intro h
    unfold largerOf smallerOf
    rw [if_pos h, if_pos h]
    exact ⟨rfl, rfl⟩
  · intro h
    have hng : ¬ left.nrow > right.nrow := by omega
    unfold largerOf smallerOf
    rw [if_neg hng, if_neg hng]
    exact ⟨rfl, rfl⟩
  · have h := buildHT_spec hwfL (fnLargeOf left right fnLeft fnRight)
      (largerOf left right).rows 0 (fun _ => []) (by simp)
    rw [intRange_eq, hwfL.1]
    exact ⟨_, h, fun k => by simp⟩
  · by_cases hgt : left.nrow > right.nrow
    · refine ⟨_, hashJoin_spec_gt hl hr fnLeft fnRight hgt, rfl, ?_⟩
      intro row hrow
      obtain ⟨s, hs, hrow2⟩ := List.mem_flatMap.mp hrow
      obtain ⟨l, hlm, rfl⟩ := List.mem_map.mp hrow2
      obtain ⟨hlmem, hbeq⟩ := List.mem_filter.mp hlm
      exact ⟨l, hlmem, s, hs, eq_of_beq hbeq, rfl⟩
    · refine ⟨_, hashJoin_spec_le hl hr fnLeft fnRight hgt, rfl, ?_⟩
      intro row hrow
      obtain ⟨s, hs, hrow2⟩ := List.mem_flatMap.mp hrow
      obtain ⟨r, hrm, rfl⟩ := List.mem_map.mp hrow2
      obtain ⟨hrmem, hbeq⟩ := List.mem_filter.mp hrm
      exact ⟨s, hs, r, hrmem, (eq_of_beq hbeq).symm, rfl⟩

theorem hashJoin_designation_spec_witness :
    largerOf (DataTable.newDataTable 1) (DataTable.newDataTable 2)
        = DataTable.newDataTable 2 ∧
      smallerOf (DataTable.newDataTable 1) (DataTable.newDataTable 2)
        = DataTable.newDataTable 1 :=
  (hashJoin_designation_spec (DataTable.newDataTable 1)
    (DataTable.newDataTable 2) (fun _ => "") (fun _ => "")
    (by decide) (by decide)).2.1 (by decide)

lemma flatMap_congr {α β : Type} {l : List α} {f g : α → List β}
    (h : ∀ a ∈ l, f a = g a) : l.flatMap f = l.flatMap g := by
  induction l with
  | nil => rfl
  | cons a l ih =>
    simp only [List.flatMap_cons, h a (List.mem_cons_self a l),
      ih (fun b hb => h b (List.mem_cons_of_mem a hb))]

/-- C1: for an equality condition expressed both as the row-pair predicate
`fnLeft l == fnRight r` (for `Join`) and as the matching key extractors
`fnLeft`/`fnRight` (for `HashJoin`), the two algorithms produce the same
multiset of result rows; the order may differ (and does exactly when the
left table is strictly larger, since `HashJoin` then probes with the
right table). -/
theorem join_hashJoin_multiset_equiv (left right : DataTable)
    (fnLeft fnRight : Row → String) (hl : WF left) (hr : WF right) :
    ∃ jt ht, join left right (fun l r => fnLeft l == fnRight r) = some jt ∧
      hashJoin left right fnLeft fnRight = some ht ∧
      (jt.rows : Multiset Row) = (ht.rows : Multiset Row) := by
  have hj := join_spec hl hr (fun l r => fnLeft l == fnRight r)
  by_cases hgt : left.nrow > right.nrow
  · refine ⟨_, _, hj, hashJoin_spec_gt hl hr fnLeft fnRight hgt, ?_⟩
    show ((left.rows.flatMap fun l =>
        (right.rows.filter (fun r => fnLeft l == fnRight r)).map
          (fun r => l ++ r)) : Multiset Row)
      = ((right.rows.flatMap fun s =>
        (left.rows.filter (fun row => fnLeft row == fnRight s)).map
          (fun l => l ++ s)) : Multiset Row)
    have e1 : (left.rows.flatMap fun l =>
        (right.rows.filter (fun r => fnLeft l == fnRight r)).map
          (fun r => l ++ r))
        = left.rows.flatMap (fun l => right.rows.flatMap
            (fun r => if fnLeft l == fnRight r then [l ++ r] else [])) := by
      simp only [filter_map_eq_flatMap]
    have e2 : (right.rows.flatMap fun s =>
        (left.rows.filter (fun row => fnLeft row == fnRight s)).map
          (fun l => l ++ s))
        = right.rows.flatMap (fun s => left.rows.flatMap
            (fun l => if fnLeft l == fnRight s then [l ++ s] else [])) := by
      simp only [filter_map_eq_flatMap]
    rw [e1, e2]
    simp only [← Multiset.coe_bind]
    exact Multiset.bind_bind _ _
  · refine ⟨_, _, hj, hashJoin_spec_le hl hr fnLeft fnRight hgt, ?_⟩
    show ((left.rows.flatMap fun l =>
        (right.rows.filter (fun r => fnLeft l == fnRight r)).map
          (fun r => l ++ r)) : Multiset Row)
      = ((left.rows.flatMap fun s =>
        (right.rows.filter (fun row => fnRight row == fnLeft s)).map
          (fun r => s ++ r)) : Multiset Row)
    have hlist : (left.rows.flatMap fun l =>
        (right.rows.filter (fun r => fnLeft l == fnRight r)).map
          (fun r => l ++ r))
        = (left.rows.flatMap fun s =>
        (right.rows.filter (fun row => fnRight row == fnLeft s)).map
          (fun r => s ++ r)) := by
      apply flatMap_congr
      intro l _
      congr 1
      apply List.filter_congr
      intro r _
      exact string_beq_symm (fnLeft l) (fnRight r)
    rw [hlist]

theorem join_hashJoin_multiset_equiv_witness :
    (join
        { rows := [["a", "b", "c"], ["e", "f", "g"], ["f", "k", "x"], ["g", "h", "l"]],
          nrow := 4, ncol := 3 }
        { rows := [["a", "1"], ["f", "2"], ["k", "3"]], nrow := 3, ncol := 2 }
        (fun l r => l.headD "" == r.headD "")).map
        (fun t => (t.rows : Multiset Row))
      = (hashJoin
        { rows := [["a", "b", "c"], ["e", "f", "g"], ["f", "k", "x"], ["g", "h", "l"]],
          nrow := 4, ncol := 3 }
        { rows := [["a", "1"], ["f", "2"], ["k", "3"]], nrow := 3, ncol := 2 }
        (fun l => l.headD "") (fun r => r.headD "")).map
        (fun t => (t.rows : Multiset Row)) := by
  obtain ⟨jt, ht, h1, h2, h3⟩ := join_hashJoin_multiset_equiv
    { rows := [["a", "b", "c"], ["e", "f", "g"], ["f", "k", "x"], ["g", "h", "l"]],
      nrow := 4, ncol := 3 }
    { rows := [["a", "1"], ["f", "2"], ["k", "3"]], nrow := 3, ncol := 2 }
    (fun l => l.headD "") (fun r => r.headD "") (by decide) (by decide)
  rw [show join
        { rows := [["a", "b", "c"], ["e", "f", "g"], ["f", "k", "x"], ["g", "h", "l"]],
          nrow := 4, ncol := 3 }
        { rows := [["a", "1"], ["f", "2"], ["k", "3"]], nrow := 3, ncol := 2 }
        (fun l r => l.headD "" == r.headD "") = some jt from h1,
    h2, Option.map_some', Option.map_some', h3]
